import Mathlib

/-!
Shallow embedding of `src/etl_connector.py` (class `PhishTankETL`), the ETL
pipeline that fetches a PhishTank CSV feed, normalizes each row, and reconciles
it into a MongoDB collection keyed by `phish_id`.

Modelling conventions:
* Python strings are `String`; a Python value that may be `None` is an
  `Option String` (`none` = Python `None`).
* A CSV row (`csv.DictReader` output) is modelled by the four columns the code
  ever accesses; each field is `Option (Option String)`: `none` = key absent,
  `some none` = key present with value `None`, `some (some s)` = string value.
  Other columns are never read by the code, so they are omitted.
* Timestamps (`datetime`) are modelled as `Int`; `datetime.fromisoformat` is an
  abstract parameter `parse : String → Option Int` (`none` = `ValueError`),
  and `datetime.now(timezone.utc)` is a parameter `now : Int`.
* The MongoDB collection is an association list from `phish_id` to a stored
  document; a stored document keeps the five fields the pipeline writes plus
  opaque `extra` fields it never touches.  `bulk_write` with `UpdateOne`
  upsert intents is applied op by op; which writes fail (`BulkWriteError`
  write errors) is abstracted by a `fails : List String` parameter of failing
  keys.  On failure the already-applied writes persist and the exception is
  raised after the batch, as with pymongo `ordered=False`.
* A raised Python exception is `Except.error`; `AttributeError` is raised by
  `.strip()` / `.lower()` on `None`.
-/

/-- Python exceptions that the modelled code can raise and does not catch. -/
inductive PyError where
  | attributeError
deriving DecidableEq, Repr

/-- The document built by `PhishTankETL._clean_row` (the NormalizedRecord). -/
structure Doc where
  phish_id : String
  url : String
  submission_time : Option Int
  verified : Bool
  ingested_at : Int
deriving DecidableEq, Repr

/-- A stored MongoDB document: the five pipeline-written fields plus any other
fields already present on the document, which the pipeline never touches. -/
structure StoredDoc where
  fields : Doc
  extra : List (String × String)
deriving DecidableEq, Repr

/-- The collection, keyed by `phish_id`. -/
abbrev Store := List (String × StoredDoc)

/-- One CSV row as seen by `_clean_row`, restricted to the four columns the
code accesses.  `none` = column absent, `some none` = value `None`,
`some (some s)` = string value `s`. -/
structure RawRow where
  phish_id : Option (Option String)
  url : Option (Option String)
  submission_time : Option (Option String)
  verified : Option (Option String)
deriving DecidableEq, Repr

/-- Python `row.get(key, dflt)`. -/
def pyGet (field : Option (Option String)) (dflt : Option String) : Option String :=
  field.getD dflt

/-- Python `str.strip()` with no argument: remove leading and trailing
whitespace (written on the character list so it evaluates by reduction). -/
def pyTrim (s : String) : String :=
  ⟨((s.data.dropWhile Char.isWhitespace).reverse.dropWhile
      Char.isWhitespace).reverse⟩

/-- Python `str.lower()` (ASCII case folding, as the feed's tokens need). -/
def pyToLower (s : String) : String := ⟨s.data.map Char.toLower⟩

/-- Python `.strip()` on a possibly-`None` value: `AttributeError` on `None`. -/
def pyStrip : Option String → Except PyError String
  | none => .error .attributeError
  | some s => .ok (pyTrim s)

/-- Python `.lower()` on a possibly-`None` value: `AttributeError` on `None`. -/
def pyLower : Option String → Except PyError String
  | none => .error .attributeError
  | some s => .ok (pyToLower s)

/-- `PhishTankETL._clean_row` (etl_connector.py lines 47-68).  Returns
`.ok none` for the `return None` skip, `.ok (some doc)` for the built
document, `.error` for an uncaught Python exception. -/
def clean_row (parse : String → Option Int) (now : Int) (row : RawRow) :
    Except PyError (Option Doc) :=
  match pyStrip (pyGet row.phish_id (some "")) with
  | .error e => .error e
  | .ok pid =>
    match pyStrip (pyGet row.url (some "")) with
    | .error e => .error e
    | .ok link =>
      if pid = "" ∨ link = "" then .ok none
      else
        let submitted : Option Int :=
          match pyGet row.submission_time none with
          | none => none
          | some s => if s = "" then none else parse s
        match pyLower (pyGet row.verified (some "")) with
        | .error e => .error e
        | .ok v =>
          .ok (some { phish_id := pid, url := link, submission_time := submitted,
                      verified := v == "yes" || v == "y" || v == "true",
                      ingested_at := now })

/-- Lookup a document by its `phish_id` key (the Mongo filter
`{"phish_id": pid}` against a unique index). -/
def lookupStore : Store → String → Option StoredDoc
  | [], _ => none
  | (k, sd) :: rest, key => if key = k then some sd else lookupStore rest key

/-- The extra (non-pipeline) fields currently stored under key `k`
(`[]` when no document exists). -/
def extraAt (st : Store) (k : String) : List (String × String) :=
  match lookupStore st k with
  | some sd => sd.extra
  | none => []

/-- Apply one `UpdateOne({"phish_id": d.phish_id}, {"$set": d}, upsert=True)`
intent: replace the five fields of the matching document in place, or create
the document if absent.  `$set` leaves all other fields unchanged. -/
def storeSet : Store → Doc → Store
  | [], d => [(d.phish_id, ⟨d, []⟩)]
  | (k, sd) :: rest, d =>
    if d.phish_id = k then (k, ⟨d, sd.extra⟩) :: rest
    else (k, sd) :: storeSet rest d

/-- Result of `collection.bulk_write(ops, ordered=False)`:
the collection afterwards, `upserted_count`, `matched_count`, and whether a
`BulkWriteError` is raised (some write failed). -/
structure BulkOut where
  store : Store
  nUpserted : Nat
  nMatched : Nat
  failed : Bool
deriving DecidableEq, Repr

/-- `collection.bulk_write` over a list of upsert intents.  A write on a key
in `fails` does not apply and marks the batch failed; other writes in the
same unordered batch still apply. -/
def bulk_write (fails : List String) : Store → List Doc → BulkOut
  | st, [] => ⟨st, 0, 0, false⟩
  | st, d :: rest =>
    if d.phish_id ∈ fails then
      let r := bulk_write fails st rest
      ⟨r.store, r.nUpserted, r.nMatched, true⟩
    else
      match lookupStore st d.phish_id with
      | some _ =>
        let r := bulk_write fails (storeSet st d) rest
        ⟨r.store, r.nUpserted, r.nMatched + 1, r.failed⟩
      | none =>
        let r := bulk_write fails (storeSet st d) rest
        ⟨r.store, r.nUpserted + 1, r.nMatched, r.failed⟩

/-- Result of `PhishTankETL._commit_batch`: the collection, the returned
`(upserted_count, matched_count)` pair, and whether the `[WARN]` branch ran. -/
structure CommitOut where
  store : Store
  nUpserted : Nat
  nMatched : Nat
  warned : Bool
deriving DecidableEq, Repr

/-- `PhishTankETL._commit_batch` (etl_connector.py lines 70-77): on
`BulkWriteError` it prints a warning and returns `(0, 0)`; it never raises. -/
def commit_batch (fails : List String) (st : Store) (ops : List Doc) : CommitOut :=
  let r := bulk_write fails st ops
  if r.failed then ⟨r.store, 0, 0, true⟩ else ⟨r.store, r.nUpserted, r.nMatched, false⟩

/-- The fatal error of `PhishTankETL._fetch_csv` line 45
(`RuntimeError("Failed to download data after multiple attempts.")`), the
spec's `SourceUnavailable`. -/
inductive FetchError where
  | sourceUnavailable
deriving DecidableEq, Repr

/-- Observable outcome of `_fetch_csv`: number of `requests.get` attempts
made, the `time.sleep` durations in order, and whether a stream was returned
(`.ok`) or the fatal error raised. -/
structure FetchOut where
  attemptsMade : Nat
  waits : List Nat
  result : Except FetchError Unit
deriving Repr

/-- The `for attempt in range(retries)` loop of `_fetch_csv`
(etl_connector.py lines 34-45).  `outcome a = true` means the `requests.get`
of attempt index `a` succeeds; `rem` is the number of loop iterations left. -/
def fetchLoop (outcome : Nat → Bool) (retries backoff : Nat) :
    Nat → Nat → FetchOut
  | _, 0 => ⟨0, [], .error .sourceUnavailable⟩
  | attempt, rem + 1 =>
    if outcome attempt then ⟨1, [], .ok ()⟩
    else if attempt < retries - 1 then
      let r := fetchLoop outcome retries backoff (attempt + 1) rem
      ⟨r.attemptsMade + 1, backoff * (attempt + 1) :: r.waits, r.result⟩
    else ⟨1, [], .error .sourceUnavailable⟩

/-- `PhishTankETL._fetch_csv(retries, backoff)` (etl_connector.py lines
32-45), abstracting over which attempts succeed. -/
def fetch_csv (outcome : Nat → Bool) (retries backoff : Nat) : FetchOut :=
  fetchLoop outcome retries backoff 0 retries

/-- Python truthiness of the `max_rows` argument combined with the cap test:
`if max_rows and processed >= max_rows` (etl_connector.py line 86).
`none` models `max_rows=None`; `some 0` is falsy like Python `0`. -/
def capHit : Option Nat → Nat → Bool
  | none, _ => false
  | some m, p => if m = 0 then false else decide (m ≤ p)

/-- The mutable state of `PhishTankETL.run`, instrumented with the
observables the properties talk about: `consumed` counts the rows pulled
from the `csv.DictReader` iterator, and `commits` records the size of each
batch passed to `_commit_batch`, in call order. -/
structure RunState where
  store : Store
  pending : List Doc
  inserted : Nat
  updated : Nat
  skipped : Nat
  processed : Nat
  consumed : Nat
  commits : List Nat
deriving DecidableEq, Repr

/-- Loop body for a skipped row (lines 90-93): count it and continue. -/
def stepSkip (s : RunState) : RunState :=
  { s with consumed := s.consumed + 1, skipped := s.skipped + 1,
           processed := s.processed + 1 }

/-- Loop body for an accepted row when appending it fills the batch (lines
95-105): append the upsert intent, commit the batch, add the returned
counts, clear the pending list, then count the row processed. -/
def stepCommit (fails : List String) (s : RunState) (d : Doc) : RunState :=
  { s with consumed := s.consumed + 1,
           store := (commit_batch fails s.store (s.pending ++ [d])).store,
           inserted := s.inserted
             + (commit_batch fails s.store (s.pending ++ [d])).nUpserted,
           updated := s.updated
             + (commit_batch fails s.store (s.pending ++ [d])).nMatched,
           pending := [],
           commits := s.commits ++ [s.pending.length + 1],
           processed := s.processed + 1 }

/-- Loop body for an accepted row below the batch threshold (lines 95-97,
105): append the upsert intent and count the row processed. -/
def stepAppend (s : RunState) (d : Doc) : RunState :=
  { s with consumed := s.consumed + 1, pending := s.pending ++ [d],
           processed := s.processed + 1 }

/-- The `for row in reader` loop of `PhishTankETL.run` (etl_connector.py
lines 85-105).  The loop header pulls the next row (bumping `consumed`)
before the body's cap check runs. -/
def runLoop (fails : List String) (parse : String → Option Int) (now : Int)
    (max_rows : Option Nat) (batch_size : Nat) :
    List RawRow → RunState → Except PyError RunState
  | [], s => .ok s
  | row :: rest, s =>
    if capHit max_rows s.processed then .ok { s with consumed := s.consumed + 1 }
    else
      match clean_row parse now row with
      | .error e => .error e
      | .ok none =>
        runLoop fails parse now max_rows batch_size rest (stepSkip s)
      | .ok (some d) =>
        if batch_size ≤ s.pending.length + 1 then
          runLoop fails parse now max_rows batch_size rest (stepCommit fails s d)
        else
          runLoop fails parse now max_rows batch_size rest (stepAppend s d)

/-- The state at the top of `PhishTankETL.run`, the collection being `st`. -/
def initState (st : Store) : RunState :=
  { store := st, pending := [], inserted := 0, updated := 0,
    skipped := 0, processed := 0, consumed := 0, commits := [] }

/-- `PhishTankETL.run(max_rows, batch_size)` (etl_connector.py lines 79-112)
given the rows the successfully-fetched reader yields: the loop, then the
final flush of a non-empty pending batch. -/
def run (fails : List String) (parse : String → Option Int) (now : Int)
    (rows : List RawRow) (max_rows : Option Nat) (batch_size : Nat)
    (st : Store) : Except PyError RunState :=
  match runLoop fails parse now max_rows batch_size rows (initState st) with
  | .error e => .error e
  | .ok s =>
    if s.pending = [] then .ok s
    else .ok { s with
        store := (commit_batch fails s.store s.pending).store,
        inserted := s.inserted + (commit_batch fails s.store s.pending).nUpserted,
        updated := s.updated + (commit_batch fails s.store s.pending).nMatched,
        commits := s.commits ++ [s.pending.length] }

/-! ## Derived notions used to state and prove the properties -/

/-- The required-field skip condition of `_clean_row`: `phish_id` or `url`,
after trimming, is empty (an absent column reads as `""`). -/
def skipsRow (row : RawRow) : Bool :=
  pyTrim ((pyGet row.phish_id (some "")).getD "") == "" ||
  pyTrim ((pyGet row.url (some "")).getD "") == ""

/-- A row whose present values are strings (as `csv.DictReader` yields for
full-length lines): none of the three fields `_clean_row` calls a string
method on is a present `None`. -/
def RawRow.wf (row : RawRow) : Bool :=
  decide (row.phish_id ≠ some none) && decide (row.url ≠ some none) &&
  decide (row.verified ≠ some none)

/-- All rows of a feed are string-valued. -/
def rowsWF (rows : List RawRow) : Bool := rows.all RawRow.wf

/-- The document `_clean_row` builds for a non-skipped row, written out
field by field. -/
def mkDoc (parse : String → Option Int) (now : Int) (row : RawRow) : Doc :=
  { phish_id := pyTrim ((pyGet row.phish_id (some "")).getD ""),
    url := pyTrim ((pyGet row.url (some "")).getD ""),
    submission_time :=
      match pyGet row.submission_time none with
      | none => none
      | some s => if s = "" then none else parse s,
    verified :=
      pyToLower ((pyGet row.verified (some "")).getD "") == "yes" ||
      pyToLower ((pyGet row.verified (some "")).getD "") == "y" ||
      pyToLower ((pyGet row.verified (some "")).getD "") == "true",
    ingested_at := now }

/-- Re-stamp a document with a different transformation time. -/
def retime (t : Int) (d : Doc) : Doc := { d with ingested_at := t }

lemma pyGet_ne_null {f : Option (Option String)} (h : f ≠ some none) :
    ∃ s, pyGet f (some "") = some s ∧ (pyGet f (some "")).getD "" = s := by
  cases f with
  | none => exact ⟨"", rfl, rfl⟩
  | some o =>
    cases o with
    | none => exact absurd rfl h
    | some s => exact ⟨s, rfl, rfl⟩

/-- On a row whose `phish_id` and `url` values are not `None`, `_clean_row`
returns the skip `None` under the required-field condition (the `verified`
field is never reached in that case). -/
lemma clean_row_skip {row : RawRow} (hp : row.phish_id ≠ some none)
    (hu : row.url ≠ some none) (hs : skipsRow row = true)
    (parse : String → Option Int) (now : Int) :
    clean_row parse now row = .ok none := by
  obtain ⟨p, hp', hpd⟩ := pyGet_ne_null hp
  obtain ⟨u, hu', hud⟩ := pyGet_ne_null hu
  rw [skipsRow, hpd, hud] at hs
  rcases (by simpa using hs : _ ∨ _) with h | h <;>
    simp [clean_row, hp', hu', pyStrip, h]

lemma clean_row_wf {row : RawRow} (hw : row.wf = true)
    (parse : String → Option Int) (now : Int) :
    clean_row parse now row =
      .ok (if skipsRow row then none else some (mkDoc parse now row)) := by
  simp only [RawRow.wf, Bool.and_eq_true, decide_eq_true_eq] at hw
  obtain ⟨⟨hp, hu⟩, hv⟩ := hw
  obtain ⟨p, hp', hpd⟩ := pyGet_ne_null hp
  obtain ⟨u, hu', hud⟩ := pyGet_ne_null hu
  obtain ⟨v, hv', hvd⟩ := pyGet_ne_null hv
  by_cases h1 : pyTrim p = "" <;> by_cases h2 : pyTrim u = "" <;>
    simp [clean_row, mkDoc, skipsRow, hp', hu', hv', hpd, hud, hvd,
      pyStrip, pyLower, h1, h2]

lemma mkDoc_retime (parse : String → Option Int) (n1 n2 : Int) (row : RawRow) :
    mkDoc parse n2 row = retime n2 (mkDoc parse n1 row) := rfl

/-! ## Store lemmas -/

/-- The keys of the collection, in list order. -/
def keysOf (st : Store) : List String := st.map Prod.fst

/-- The last document of a batch whose key is `k` (the one whose `$set`
wins for that key). -/
def findLast : List Doc → String → Option Doc
  | [], _ => none
  | d :: rest, k =>
    match findLast rest k with
    | some d2 => some d2
    | none => if d.phish_id = k then some d else none

lemma lookup_storeSet (st : Store) (d : Doc) (k : String) :
    lookupStore (storeSet st d) k =
      if k = d.phish_id then some ⟨d, extraAt st d.phish_id⟩
      else lookupStore st k := by
  induction st with
  | nil => by_cases hk : k = d.phish_id <;> simp [storeSet, lookupStore, extraAt, hk]
  | cons e rest ih =>
    obtain ⟨k', sd⟩ := e
    by_cases h : d.phish_id = k' <;> by_cases hk : k = d.phish_id <;>
      simp_all [storeSet, lookupStore, extraAt]

lemma extraAt_storeSet (st : Store) (d : Doc) (k : String) :
    extraAt (storeSet st d) k = extraAt st k := by
  by_cases hk : k = d.phish_id <;> simp [extraAt, lookup_storeSet, hk]

lemma extraAt_of_lookup {st : Store} {k : String} {sd : StoredDoc}
    (h : lookupStore st k = some sd) : extraAt st k = sd.extra := by
  simp [extraAt, h]

/-- Per-key view of an all-upsert `bulk_write` with no failing writes: the
key ends up holding the batch's last document for it (extras preserved), and
keys not in the batch are untouched. -/
lemma bulk_store_lookup : ∀ (ds : List Doc) (st : Store) (k : String),
    lookupStore (bulk_write [] st ds).store k =
      match findLast ds k with
      | some d => some ⟨d, extraAt st k⟩
      | none => lookupStore st k
  | [], st, k => by simp [bulk_write, findLast]
  | d :: ds, st, k => by
    have hrec := bulk_store_lookup ds (storeSet st d) k
    have hst : (bulk_write [] st (d :: ds)).store
        = (bulk_write [] (storeSet st d) ds).store := by
      cases hl : lookupStore st d.phish_id <;> simp [bulk_write, hl]
    rw [hst, hrec, extraAt_storeSet]
    cases hf : findLast ds k with
    | some d2 => simp [findLast, hf]
    | none =>
      by_cases hk : k = d.phish_id
      · subst hk
        simp [findLast, hf, lookup_storeSet]
      · have hk2 : ¬d.phish_id = k := fun h => hk h.symm
        simp [findLast, hf, lookup_storeSet, hk, hk2]

lemma findLast_isSome_of_mem : ∀ {ds : List Doc} {d : Doc}, d ∈ ds →
    (findLast ds d.phish_id).isSome
  | d0 :: ds, d, h => by
    rcases List.mem_cons.mp h with rfl | h
    · cases hf : findLast ds d.phish_id <;> simp [findLast, hf]
    · have := findLast_isSome_of_mem h
      cases hf : findLast ds d.phish_id with
      | some d2 => simp [findLast, hf]
      | none => rw [hf] at this; simp at this

lemma findLast_map_retime (n : Int) : ∀ (ds : List Doc) (k : String),
    findLast (ds.map (retime n)) k = (findLast ds k).map (retime n)
  | [], _ => rfl
  | d :: ds, k => by
    have ih := findLast_map_retime n ds k
    cases hf : findLast ds k with
    | some d2 => simp [findLast, List.map_cons, ih, hf]
    | none =>
      have hpid : (retime n d).phish_id = d.phish_id := rfl
      by_cases hk : d.phish_id = k <;>
        simp [findLast, List.map_cons, ih, hf, hpid, hk]

/-- All-matched batch: if every op's key already has a document, the bulk
write upserts nothing and matches every op. -/
lemma bulk_all_matched : ∀ (ds : List Doc) (st : Store),
    (∀ d ∈ ds, (lookupStore st d.phish_id).isSome) →
    (bulk_write [] st ds).nUpserted = 0 ∧
      (bulk_write [] st ds).nMatched = ds.length
  | [], st, _ => by simp [bulk_write]
  | d :: ds, st, h => by
    obtain ⟨sd, hl⟩ := Option.isSome_iff_exists.mp (h d (List.mem_cons_self d ds))
    have hrest : ∀ d2 ∈ ds, (lookupStore (storeSet st d) d2.phish_id).isSome := by
      intro d2 hd2
      rw [lookup_storeSet]
      split
      · simp
      · exact h d2 (List.mem_cons_of_mem d hd2)
    have := bulk_all_matched ds (storeSet st d) hrest
    simp [bulk_write, hl, this.1, this.2]

lemma bulk_failed_false : ∀ (ds : List Doc) (st : Store),
    (bulk_write [] st ds).failed = false
  | [], st => rfl
  | d :: ds, st => by
    cases hl : lookupStore st d.phish_id <;>
      simp [bulk_write, hl, bulk_failed_false ds]

lemma bulk_failed_true (fails : List String) :
    ∀ (ds : List Doc) (st : Store), (∃ d ∈ ds, d.phish_id ∈ fails) →
    (bulk_write fails st ds).failed = true
  | d :: ds, st, h => by
    by_cases hd : d.phish_id ∈ fails
    · simp [bulk_write, hd]
    · rcases h with ⟨d2, hmem, hf2⟩
      rcases List.mem_cons.mp hmem with rfl | hmem
      · exact absurd hf2 hd
      · have := bulk_failed_true fails ds (storeSet st d) ⟨d2, hmem, hf2⟩
        cases hl : lookupStore st d.phish_id <;> simp [bulk_write, hd, hl, this]

lemma bulk_append (fails : List String) : ∀ (a b : List Doc) (st : Store),
    (bulk_write fails st (a ++ b)).store
        = (bulk_write fails (bulk_write fails st a).store b).store ∧
    (bulk_write fails st (a ++ b)).nUpserted
        = (bulk_write fails st a).nUpserted
          + (bulk_write fails (bulk_write fails st a).store b).nUpserted ∧
    (bulk_write fails st (a ++ b)).nMatched
        = (bulk_write fails st a).nMatched
          + (bulk_write fails (bulk_write fails st a).store b).nMatched
  | [], b, st => by simp [bulk_write]
  | d :: a, b, st => by
    by_cases hd : d.phish_id ∈ fails
    · have ih := bulk_append fails a b st
      simp [bulk_write, hd, ih.1, ih.2.1, ih.2.2]
    · cases hl : lookupStore st d.phish_id <;>
      · have ih := bulk_append fails a b (storeSet st d)
        simp [bulk_write, hd, hl, ih.1, ih.2.1, ih.2.2]
        omega

/-- Any sequence of upsert intents preserves existing documents: the key
still resolves and its extra (non-pipeline) fields are untouched. -/
lemma bulk_preserves (fails : List String) :
    ∀ (ds : List Doc) (st : Store) (k : String) (sd : StoredDoc),
    lookupStore st k = some sd →
    ∃ sd', lookupStore (bulk_write fails st ds).store k = some sd' ∧
      sd'.extra = sd.extra
  | [], st, k, sd, h => ⟨sd, h, rfl⟩
  | d :: ds, st, k, sd, h => by
    by_cases hd : d.phish_id ∈ fails
    · have ih := bulk_preserves fails ds st k sd h
      simpa [bulk_write, hd] using ih
    · have hset : ∃ sd2, lookupStore (storeSet st d) k = some sd2 ∧
          sd2.extra = sd.extra := by
        rw [lookup_storeSet]
        by_cases hk : k = d.phish_id
        · subst hk
          exact ⟨⟨d, extraAt st d.phish_id⟩, by simp, extraAt_of_lookup h⟩
        · exact ⟨sd, by simp [hk, h], rfl⟩
      obtain ⟨sd2, hl2, he2⟩ := hset
      obtain ⟨sd', hl', he'⟩ := bulk_preserves fails ds (storeSet st d) k sd2 hl2
      cases hl : lookupStore st d.phish_id <;>
        exact ⟨sd', by simpa [bulk_write, hd, hl] using hl', he'.trans he2⟩

lemma mem_keys_storeSet {x : String} : ∀ (st : Store) (d : Doc),
    x ∈ keysOf (storeSet st d) ↔ x ∈ keysOf st ∨ x = d.phish_id
  | [], d => by simp [storeSet, keysOf]
  | (k', sd) :: rest, d => by
    by_cases h : d.phish_id = k'
    · subst h
      simp [storeSet, keysOf, List.mem_cons]
      tauto
    · have ih := @mem_keys_storeSet x rest d
      simp only [storeSet, if_neg h, keysOf, List.map_cons, List.mem_cons] at ih ⊢
      tauto

lemma nodup_storeSet (st : Store) (d : Doc) (h : (keysOf st).Nodup) :
    (keysOf (storeSet st d)).Nodup := by
  induction st with
  | nil => simp [storeSet, keysOf]
  | cons e rest ih =>
    obtain ⟨k', sd⟩ := e
    simp only [keysOf, List.map_cons, List.nodup_cons] at h
    by_cases hd : d.phish_id = k'
    · subst hd
      simpa [storeSet, keysOf, List.nodup_cons] using h
    · have h2 := ih h.2
      simp only [storeSet, if_neg hd, keysOf, List.map_cons, List.nodup_cons]
      refine ⟨fun hmem => ?_, h2⟩
      rcases (mem_keys_storeSet rest d).mp hmem with hm | hm
      · exact h.1 hm
      · exact hd hm.symm

lemma nodup_bulk (fails : List String) : ∀ (ds : List Doc) (st : Store),
    (keysOf st).Nodup → (keysOf (bulk_write fails st ds).store).Nodup
  | [], st, h => h
  | d :: ds, st, h => by
    by_cases hd : d.phish_id ∈ fails
    · simpa [bulk_write, hd] using nodup_bulk fails ds st h
    · have := nodup_bulk fails ds (storeSet st d) (nodup_storeSet st d h)
      cases hl : lookupStore st d.phish_id <;> simpa [bulk_write, hd, hl] using this

/-! ## Characterizing the run loop -/

/-- The documents the loop accepts (in order), starting from processed
count `p`, honoring the row cap. -/
def acceptedFrom (parse : String → Option Int) (now : Int) (mr : Option Nat) :
    List RawRow → Nat → List Doc
  | [], _ => []
  | row :: rest, p =>
    if capHit mr p then []
    else
      match clean_row parse now row with
      | .error _ => []
      | .ok none => acceptedFrom parse now mr rest (p + 1)
      | .ok (some d) => d :: acceptedFrom parse now mr rest (p + 1)

/-- The `(skipped, processed)` deltas of the loop, starting from processed
count `p`; these depend only on the rows, not on timestamps or the store. -/
def tallies (mr : Option Nat) : List RawRow → Nat → Nat × Nat
  | [], _ => (0, 0)
  | row :: rest, p =>
    if capHit mr p then (0, 0)
    else
      if skipsRow row then
        ((tallies mr rest (p + 1)).1 + 1, (tallies mr rest (p + 1)).2 + 1)
      else
        ((tallies mr rest (p + 1)).1, (tallies mr rest (p + 1)).2 + 1)

lemma acceptedFrom_retime (parse : String → Option Int) (n1 n2 : Int)
    (mr : Option Nat) : ∀ (rows : List RawRow) (p : Nat), rowsWF rows = true →
    acceptedFrom parse n2 mr rows p
      = (acceptedFrom parse n1 mr rows p).map (retime n2)
  | [], p, _ => rfl
  | row :: rest, p, hw => by
    rw [rowsWF, List.all_cons, Bool.and_eq_true] at hw
    have ih := acceptedFrom_retime parse n1 n2 mr rest (p + 1) hw.2
    by_cases hc : capHit mr p = true
    · simp [acceptedFrom, hc]
    · by_cases hs : skipsRow row = true <;>
        simp [acceptedFrom, hc, clean_row_wf hw.1, hs, ih,
          mkDoc_retime parse n1 n2 row]

lemma tallies_spec (parse : String → Option Int) (now : Int) (mr : Option Nat) :
    ∀ (rows : List RawRow) (p : Nat), rowsWF rows = true →
    (tallies mr rows p).2
      = (tallies mr rows p).1 + (acceptedFrom parse now mr rows p).length
  | [], p, _ => rfl
  | row :: rest, p, hw => by
    rw [rowsWF, List.all_cons, Bool.and_eq_true] at hw
    have ih := tallies_spec parse now mr rest (p + 1) hw.2
    by_cases hc : capHit mr p = true
    · simp [tallies, acceptedFrom, hc]
    · by_cases hs : skipsRow row = true
      · simp only [tallies, acceptedFrom, hc, clean_row_wf hw.1, hs, if_true,
          Bool.false_eq_true, if_false, ite_true, ite_false]
        omega
      · simp only [tallies, acceptedFrom, hc, clean_row_wf hw.1, hs, if_true,
          Bool.false_eq_true, if_false, ite_true, ite_false, List.length_cons]
        omega

/-- The collection as it would read after committing the pending batch
(the absorbed store). -/
def absStore (s : RunState) : Store := (bulk_write [] s.store s.pending).store

/-- Inserted count including the still-pending batch. -/
def absIns (s : RunState) : Nat :=
  s.inserted + (bulk_write [] s.store s.pending).nUpserted

/-- Updated count including the still-pending batch. -/
def absUpd (s : RunState) : Nat :=
  s.updated + (bulk_write [] s.store s.pending).nMatched

lemma bulk_single (st : Store) (d : Doc) :
    (bulk_write [] st [d]).store = storeSet st d := by
  cases hl : lookupStore st d.phish_id <;> simp [bulk_write, hl]

lemma bulk_cons (st : Store) (d : Doc) (ds : List Doc) :
    (bulk_write [] st (d :: ds)).store = (bulk_write [] (storeSet st d) ds).store ∧
    (bulk_write [] st (d :: ds)).nUpserted
      = (bulk_write [] st [d]).nUpserted
        + (bulk_write [] (storeSet st d) ds).nUpserted ∧
    (bulk_write [] st (d :: ds)).nMatched
      = (bulk_write [] st [d]).nMatched
        + (bulk_write [] (storeSet st d) ds).nMatched := by
  cases hl : lookupStore st d.phish_id <;>
    refine ⟨by simp [bulk_write, hl], by simp [bulk_write, hl]; try omega,
      by simp [bulk_write, hl]; try omega⟩

lemma absorb_append (s : RunState) (d : Doc) :
    (bulk_write [] s.store (s.pending ++ [d])).store = storeSet (absStore s) d ∧
    (bulk_write [] s.store (s.pending ++ [d])).nUpserted
      = (bulk_write [] s.store s.pending).nUpserted
        + (bulk_write [] (absStore s) [d]).nUpserted ∧
    (bulk_write [] s.store (s.pending ++ [d])).nMatched
      = (bulk_write [] s.store s.pending).nMatched
        + (bulk_write [] (absStore s) [d]).nMatched := by
  have h := bulk_append [] s.pending [d] s.store
  exact ⟨h.1.trans (bulk_single (absStore s) d), h.2.1, h.2.2⟩

lemma commit_batch_nofail (st : Store) (ops : List Doc) :
    commit_batch [] st ops =
      ⟨(bulk_write [] st ops).store, (bulk_write [] st ops).nUpserted,
        (bulk_write [] st ops).nMatched, false⟩ := by
  simp [commit_batch, bulk_failed_false]

lemma bulk_write_nil (fails : List String) (st : Store) :
    bulk_write fails st [] = ⟨st, 0, 0, false⟩ := rfl

lemma absStore_stepSkip (s : RunState) : absStore (stepSkip s) = absStore s := rfl

lemma absIns_stepSkip (s : RunState) : absIns (stepSkip s) = absIns s := rfl

lemma absUpd_stepSkip (s : RunState) : absUpd (stepSkip s) = absUpd s := rfl

lemma stepSkip_processed (s : RunState) :
    (stepSkip s).processed = s.processed + 1 := rfl

lemma stepSkip_skipped (s : RunState) :
    (stepSkip s).skipped = s.skipped + 1 := rfl

lemma stepCommit_processed (fails : List String) (s : RunState) (d : Doc) :
    (stepCommit fails s d).processed = s.processed + 1 := rfl

lemma stepCommit_skipped (fails : List String) (s : RunState) (d : Doc) :
    (stepCommit fails s d).skipped = s.skipped := rfl

lemma stepAppend_processed (s : RunState) (d : Doc) :
    (stepAppend s d).processed = s.processed + 1 := rfl

lemma stepAppend_skipped (s : RunState) (d : Doc) :
    (stepAppend s d).skipped = s.skipped := rfl

lemma absStore_stepCommit (s : RunState) (d : Doc) :
    absStore (stepCommit [] s d) = storeSet (absStore s) d := by
  simp only [absStore, stepCommit, commit_batch_nofail, bulk_write_nil]
  exact (absorb_append s d).1

lemma absIns_stepCommit (s : RunState) (d : Doc) :
    absIns (stepCommit [] s d)
      = absIns s + (bulk_write [] (absStore s) [d]).nUpserted := by
  simp only [absIns, stepCommit, commit_batch_nofail, bulk_write_nil]
  have := (absorb_append s d).2.1
  omega

lemma absUpd_stepCommit (s : RunState) (d : Doc) :
    absUpd (stepCommit [] s d)
      = absUpd s + (bulk_write [] (absStore s) [d]).nMatched := by
  simp only [absUpd, stepCommit, commit_batch_nofail, bulk_write_nil]
  have := (absorb_append s d).2.2
  omega

lemma absStore_stepAppend (s : RunState) (d : Doc) :
    absStore (stepAppend s d) = storeSet (absStore s) d := by
  simp only [absStore, stepAppend]
  exact (absorb_append s d).1

lemma absIns_stepAppend (s : RunState) (d : Doc) :
    absIns (stepAppend s d)
      = absIns s + (bulk_write [] (absStore s) [d]).nUpserted := by
  simp only [absIns, stepAppend]
  have := (absorb_append s d).2.1
  omega

lemma absUpd_stepAppend (s : RunState) (d : Doc) :
    absUpd (stepAppend s d)
      = absUpd s + (bulk_write [] (absStore s) [d]).nMatched := by
  simp only [absUpd, stepAppend]
  have := (absorb_append s d).2.2
  omega

/-- Master characterization of the loop with no failing writes: the absorbed
store and counters behave as if the accepted documents were applied one by
one, and the skipped/processed counters follow `tallies`. -/
lemma runLoop_char (parse : String → Option Int) (now : Int) (mr : Option Nat)
    (bs : Nat) : ∀ (rows : List RawRow) (s : RunState), rowsWF rows = true →
    ∃ s', runLoop [] parse now mr bs rows s = .ok s' ∧
      absStore s' = (bulk_write [] (absStore s)
        (acceptedFrom parse now mr rows s.processed)).store ∧
      absIns s' = absIns s + (bulk_write [] (absStore s)
        (acceptedFrom parse now mr rows s.processed)).nUpserted ∧
      absUpd s' = absUpd s + (bulk_write [] (absStore s)
        (acceptedFrom parse now mr rows s.processed)).nMatched ∧
      s'.skipped = s.skipped + (tallies mr rows s.processed).1 ∧
      s'.processed = s.processed + (tallies mr rows s.processed).2
  | [], s, _ => ⟨s, rfl, by simp [acceptedFrom, tallies, bulk_write_nil]⟩
  | row :: rest, s, hw => by
    rw [rowsWF, List.all_cons, Bool.and_eq_true] at hw
    by_cases hc : capHit mr s.processed = true
    · refine ⟨{ s with consumed := s.consumed + 1 }, by simp [runLoop, hc], ?_⟩
      simp [acceptedFrom, tallies, hc, absStore, absIns, absUpd, bulk_write_nil]
    · have hcr := clean_row_wf hw.1 parse now
      by_cases hs : skipsRow row = true
      · obtain ⟨s', hrun, h1, h2, h3, h4, h5⟩ :=
          runLoop_char parse now mr bs rest (stepSkip s) hw.2
        simp only [absStore_stepSkip, absIns_stepSkip, absUpd_stepSkip,
          stepSkip_processed, stepSkip_skipped] at h1 h2 h3 h4 h5
        refine ⟨s', by simp [runLoop, hc, hcr, hs]; exact hrun, ?_, ?_, ?_, ?_, ?_⟩
        · simp only [acceptedFrom, hc, hcr]
          simp [hs]
          exact h1
        · simp only [acceptedFrom, hc, hcr]
          simp [hs]
          exact h2
        · simp only [acceptedFrom, hc, hcr]
          simp [hs]
          exact h3
        · simp [tallies, hc, hs]
          omega
        · simp [tallies, hc, hs]
          omega
      · by_cases hb : bs ≤ s.pending.length + 1
        · obtain ⟨s', hrun, h1, h2, h3, h4, h5⟩ :=
            runLoop_char parse now mr bs rest
              (stepCommit [] s (mkDoc parse now row)) hw.2
          simp only [absStore_stepCommit, absIns_stepCommit, absUpd_stepCommit,
            stepCommit_processed, stepCommit_skipped] at h1 h2 h3 h4 h5
          have hcons := bulk_cons (absStore s) (mkDoc parse now row)
            (acceptedFrom parse now mr rest (s.processed + 1))
          refine ⟨s', by simp [runLoop, hc, hcr, hs, hb]; exact hrun,
            ?_, ?_, ?_, ?_, ?_⟩
          · simp only [acceptedFrom, hc, hcr]
            simp [hs]
            rw [hcons.1]
            exact h1
          · simp only [acceptedFrom, hc, hcr]
            simp [hs]
            rw [hcons.2.1]
            omega
          · simp only [acceptedFrom, hc, hcr]
            simp [hs]
            rw [hcons.2.2]
            omega
          · simp [tallies, hc, hs]
            omega
          · simp [tallies, hc, hs]
            omega
        · obtain ⟨s', hrun, h1, h2, h3, h4, h5⟩ :=
            runLoop_char parse now mr bs rest
              (stepAppend s (mkDoc parse now row)) hw.2
          simp only [absStore_stepAppend, absIns_stepAppend, absUpd_stepAppend,
            stepAppend_processed, stepAppend_skipped] at h1 h2 h3 h4 h5
          have hcons := bulk_cons (absStore s) (mkDoc parse now row)
            (acceptedFrom parse now mr rest (s.processed + 1))
          refine ⟨s', by simp [runLoop, hc, hcr, hs, hb]; exact hrun,
            ?_, ?_, ?_, ?_, ?_⟩
          · simp only [acceptedFrom, hc, hcr]
            simp [hs]
            rw [hcons.1]
            exact h1
          · simp only [acceptedFrom, hc, hcr]
            simp [hs]
            rw [hcons.2.1]
            omega
          · simp only [acceptedFrom, hc, hcr]
            simp [hs]
            rw [hcons.2.2]
            omega
          · simp [tallies, hc, hs]
            omega
          · simp [tallies, hc, hs]
            omega

/-- Characterization of a full `run` with no failing writes. -/
lemma run_char (parse : String → Option Int) (now : Int) (rows : List RawRow)
    (mr : Option Nat) (bs : Nat) (st : Store) (hw : rowsWF rows = true) :
    ∃ out, run [] parse now rows mr bs st = .ok out ∧
      out.store = (bulk_write [] st (acceptedFrom parse now mr rows 0)).store ∧
      out.inserted = (bulk_write [] st (acceptedFrom parse now mr rows 0)).nUpserted ∧
      out.updated = (bulk_write [] st (acceptedFrom parse now mr rows 0)).nMatched ∧
      out.skipped = (tallies mr rows 0).1 ∧
      out.processed = (tallies mr rows 0).2 := by
  obtain ⟨s', hrun, h1, h2, h3, h4, h5⟩ :=
    runLoop_char parse now mr bs rows (initState st) hw
  have hi1 : absStore (initState st) = st := rfl
  have hi2 : absIns (initState st) = 0 := rfl
  have hi3 : absUpd (initState st) = 0 := rfl
  have hip : (initState st).processed = 0 := rfl
  have his : (initState st).skipped = 0 := rfl
  rw [hi1, hip] at h1 h2 h3
  rw [hip] at h4 h5
  rw [hi2] at h2
  rw [hi3] at h3
  rw [his] at h4
  simp only [Nat.zero_add] at h2 h3 h4 h5
  simp only [run, hrun]
  by_cases hp : s'.pending = []
  · have ha : absStore s' = s'.store := by
      simp [absStore, hp, bulk_write_nil]
    have hb : absIns s' = s'.inserted := by
      simp [absIns, hp, bulk_write_nil]
    have hcc : absUpd s' = s'.updated := by
      simp [absUpd, hp, bulk_write_nil]
    rw [ha] at h1
    rw [hb] at h2
    rw [hcc] at h3
    exact ⟨s', by simp [hp], h1, h2, h3, h4, h5⟩
  · refine ⟨{ s' with
        store := (commit_batch [] s'.store s'.pending).store,
        inserted := s'.inserted + (commit_batch [] s'.store s'.pending).nUpserted,
        updated := s'.updated + (commit_batch [] s'.store s'.pending).nMatched,
        commits := s'.commits ++ [s'.pending.length] }, by simp [hp], ?_, ?_, ?_, ?_, ?_⟩
    · simpa [commit_batch_nofail, absStore] using h1
    · simpa [commit_batch_nofail, absIns] using h2
    · simpa [commit_batch_nofail, absUpd] using h3
    · simpa using h4
    · simpa using h5

/-- The `_fetch_csv` loop when every attempt fails: one attempt per
remaining iteration, linear waits, fatal error at the end. -/
lemma fetchLoop_allFail (retries backoff : Nat) : ∀ (rem attempt : Nat),
    attempt + rem = retries →
    fetchLoop (fun _ => false) retries backoff attempt rem =
      ⟨rem, (List.range' (attempt + 1) (rem - 1)).map (fun k => backoff * k),
        .error .sourceUnavailable⟩
  | 0, attempt, h => by simp [fetchLoop]
  | rem + 1, attempt, h => by
    by_cases hl : attempt < retries - 1
    · have hrem : 1 ≤ rem := by omega
      have ih := fetchLoop_allFail retries backoff rem (attempt + 1) (by omega)
      obtain ⟨r, rfl⟩ : ∃ r, rem = r + 1 := ⟨rem - 1, by omega⟩
      unfold fetchLoop
      rw [if_neg (by simp), if_pos hl, ih]
      simp [List.range'_succ]
    · have h0 : rem = 0 := by omega
      subst h0
      unfold fetchLoop
      rw [if_neg (by simp), if_neg hl]
      simp

/-- The loop of `run` behaves identically for `max_rows = 0` and
`max_rows = None`: Python's `if max_rows and ...` treats `0` as falsy. -/
lemma runLoop_cap0 (fails : List String) (parse : String → Option Int)
    (now : Int) (bs : Nat) : ∀ (rows : List RawRow) (s : RunState),
    runLoop fails parse now (some 0) bs rows s
      = runLoop fails parse now none bs rows s
  | [], _ => rfl
  | row :: rest, s => by
    have h0 : capHit (some 0) s.processed = false := rfl
    have h1 : capHit none s.processed = false := rfl
    simp only [runLoop, h0, h1, Bool.false_eq_true, if_false]
    cases hcr : clean_row parse now row with
    | error e => rfl
    | ok o =>
      cases o with
      | none => exact runLoop_cap0 fails parse now bs rest (stepSkip s)
      | some d =>
        by_cases hb : bs ≤ s.pending.length + 1
        · simp only [hb, if_true]
          exact runLoop_cap0 fails parse now bs rest (stepCommit fails s d)
        · simp only [hb, if_false]
          exact runLoop_cap0 fails parse now bs rest (stepAppend s d)

lemma commit_batch_store (fails : List String) (st : Store) (ops : List Doc) :
    (commit_batch fails st ops).store = (bulk_write fails st ops).store := by
  simp only [commit_batch]
  split <;> rfl

/-- On string-valued rows the loop never raises. -/
lemma runLoop_total (fails : List String) (parse : String → Option Int)
    (now : Int) (mr : Option Nat) (bs : Nat) :
    ∀ (rows : List RawRow) (s : RunState), rowsWF rows = true →
    ∃ s', runLoop fails parse now mr bs rows s = .ok s'
  | [], s, _ => ⟨s, rfl⟩
  | row :: rest, s, hw => by
    rw [rowsWF, List.all_cons, Bool.and_eq_true] at hw
    by_cases hc : capHit mr s.processed = true
    · exact ⟨{ s with consumed := s.consumed + 1 }, by simp [runLoop, hc]⟩
    · have hcr := clean_row_wf hw.1 parse now
      by_cases hs : skipsRow row = true
      · obtain ⟨s', h⟩ := runLoop_total fails parse now mr bs rest (stepSkip s) hw.2
        exact ⟨s', by simp [runLoop, hc, hcr, hs]; exact h⟩
      · by_cases hb : bs ≤ s.pending.length + 1
        · obtain ⟨s', h⟩ := runLoop_total fails parse now mr bs rest
            (stepCommit fails s (mkDoc parse now row)) hw.2
          exact ⟨s', by simp [runLoop, hc, hcr, hs, hb]; exact h⟩
        · obtain ⟨s', h⟩ := runLoop_total fails parse now mr bs rest
            (stepAppend s (mkDoc parse now row)) hw.2
          exact ⟨s', by simp [runLoop, hc, hcr, hs, hb]; exact h⟩

/-- On string-valued rows `run` never raises, whatever writes fail. -/
lemma run_total (fails : List String) (parse : String → Option Int) (now : Int)
    (rows : List RawRow) (mr : Option Nat) (bs : Nat) (st : Store)
    (hw : rowsWF rows = true) :
    ∃ out, run fails parse now rows mr bs st = .ok out := by
  obtain ⟨s', h⟩ := runLoop_total fails parse now mr bs rows (initState st) hw
  by_cases hp : s'.pending = []
  · exact ⟨s', by simp [run, h, hp]⟩
  · exact ⟨{ s' with
      store := (commit_batch fails s'.store s'.pending).store,
      inserted := s'.inserted + (commit_batch fails s'.store s'.pending).nUpserted,
      updated := s'.updated + (commit_batch fails s'.store s'.pending).nMatched,
      commits := s'.commits ++ [s'.pending.length] }, by simp [run, h, hp]⟩

/-- Batch bookkeeping invariant: every committed batch so far had exactly
`bs` operations, and the pending batch is the remainder of the accepted
count modulo `bs`. -/
lemma runLoop_commits (fails : List String) (parse : String → Option Int)
    (now : Int) (mr : Option Nat) (bs : Nat) (hbs : 0 < bs) :
    ∀ (rows : List RawRow) (s : RunState), rowsWF rows = true →
    s.pending.length < bs → (∀ c ∈ s.commits, c = bs) →
    s.pending.length + bs * s.commits.length + s.skipped = s.processed →
    ∃ s', runLoop fails parse now mr bs rows s = .ok s' ∧
      s'.pending.length < bs ∧ (∀ c ∈ s'.commits, c = bs) ∧
      s'.pending.length + bs * s'.commits.length + s'.skipped = s'.processed
  | [], s, _, hl, hcm, hinv => ⟨s, rfl, hl, hcm, hinv⟩
  | row :: rest, s, hw, hl, hcm, hinv => by
    rw [rowsWF, List.all_cons, Bool.and_eq_true] at hw
    by_cases hc : capHit mr s.processed = true
    · exact ⟨{ s with consumed := s.consumed + 1 }, by simp [runLoop, hc],
        hl, hcm, hinv⟩
    · have hcr := clean_row_wf hw.1 parse now
      by_cases hs : skipsRow row = true
      · obtain ⟨s', h, p1, p2, p3⟩ := runLoop_commits fails parse now mr bs hbs
          rest (stepSkip s) hw.2 hl hcm (by simp [stepSkip]; omega)
        exact ⟨s', by simp [runLoop, hc, hcr, hs]; exact h, p1, p2, p3⟩
      · by_cases hb : bs ≤ s.pending.length + 1
        · have hfull : s.pending.length + 1 = bs := by omega
          obtain ⟨s', h, p1, p2, p3⟩ := runLoop_commits fails parse now mr bs hbs
            rest (stepCommit fails s (mkDoc parse now row)) hw.2
            (by simp [stepCommit]; omega)
            (by
              intro c hcmem
              simp only [stepCommit, List.mem_append, List.mem_singleton] at hcmem
              rcases hcmem with hcmem | hcmem
              · exact hcm c hcmem
              · omega)
            (by
              have hmul : bs * (s.commits.length + 1)
                  = bs * s.commits.length + bs := by ring
              simp [stepCommit]
              omega)
          exact ⟨s', by simp [runLoop, hc, hcr, hs, hb]; exact h, p1, p2, p3⟩
        · obtain ⟨s', h, p1, p2, p3⟩ := runLoop_commits fails parse now mr bs hbs
            rest (stepAppend s (mkDoc parse now row)) hw.2
            (by simp [stepAppend]; omega) hcm (by simp [stepAppend]; omega)
          exact ⟨s', by simp [runLoop, hc, hcr, hs, hb]; exact h, p1, p2, p3⟩

lemma capHit_false_lt {m p : Nat} (hm : m ≠ 0)
    (hc : ¬capHit (some m) p = true) : p < m := by
  simp only [capHit, if_neg hm, decide_eq_true_eq] at hc
  omega

/-- Cap and consumption bounds: `processed` never exceeds the cap, and at
most one row beyond those processed is pulled from the reader. -/
lemma runLoop_cap (fails : List String) (parse : String → Option Int)
    (now : Int) (bs : Nat) (m : Nat) (hm : m ≠ 0) :
    ∀ (rows : List RawRow) (s : RunState), rowsWF rows = true →
    s.consumed = s.processed → s.processed ≤ m →
    ∃ s', runLoop fails parse now (some m) bs rows s = .ok s' ∧
      s'.processed ≤ m ∧ s'.consumed ≤ s'.processed + 1
  | [], s, _, he, hpm => ⟨s, rfl, hpm, by omega⟩
  | row :: rest, s, hw, he, hpm => by
    rw [rowsWF, List.all_cons, Bool.and_eq_true] at hw
    by_cases hc : capHit (some m) s.processed = true
    · exact ⟨{ s with consumed := s.consumed + 1 }, by simp [runLoop, hc],
        hpm, by simp; omega⟩
    · have hlt := capHit_false_lt hm hc
      have hcr := clean_row_wf hw.1 parse now
      by_cases hs : skipsRow row = true
      · obtain ⟨s', h, p1, p2⟩ := runLoop_cap fails parse now bs m hm rest
          (stepSkip s) hw.2 (by simp [stepSkip]; omega) (by simp [stepSkip]; omega)
        exact ⟨s', by simp [runLoop, hc, hcr, hs]; exact h, p1, p2⟩
      · by_cases hb : bs ≤ s.pending.length + 1
        · obtain ⟨s', h, p1, p2⟩ := runLoop_cap fails parse now bs m hm rest
            (stepCommit fails s (mkDoc parse now row)) hw.2
            (by simp [stepCommit]; omega) (by simp [stepCommit]; omega)
          exact ⟨s', by simp [runLoop, hc, hcr, hs, hb]; exact h, p1, p2⟩
        · obtain ⟨s', h, p1, p2⟩ := runLoop_cap fails parse now bs m hm rest
            (stepAppend s (mkDoc parse now row)) hw.2
            (by simp [stepAppend]; omega) (by simp [stepAppend]; omega)
          exact ⟨s', by simp [runLoop, hc, hcr, hs, hb]; exact h, p1, p2⟩

/-- The loop never deletes a document and never touches extra fields,
whatever writes fail and whatever the rows are. -/
lemma runLoop_preserves (fails : List String) (parse : String → Option Int)
    (now : Int) (mr : Option Nat) (bs : Nat) :
    ∀ (rows : List RawRow) (s s' : RunState),
    runLoop fails parse now mr bs rows s = .ok s' →
    ∀ (k : String) (sd : StoredDoc), lookupStore s.store k = some sd →
    ∃ sd', lookupStore s'.store k = some sd' ∧ sd'.extra = sd.extra
  | [], s, s', hr, k, sd, hk => by
    rw [runLoop] at hr
    cases hr
    exact ⟨sd, hk, rfl⟩
  | row :: rest, s, s', hr, k, sd, hk => by
    rw [runLoop] at hr
    by_cases hc : capHit mr s.processed = true
    · rw [if_pos hc] at hr
      cases hr
      exact ⟨sd, hk, rfl⟩
    · rw [if_neg hc] at hr
      cases hcr : clean_row parse now row with
      | error e => rw [hcr] at hr; cases hr
      | ok o =>
        rw [hcr] at hr
        cases o with
        | none =>
          exact runLoop_preserves fails parse now mr bs rest (stepSkip s) s' hr k sd hk
        | some d =>
          have hr2 : (if bs ≤ s.pending.length + 1 then
              runLoop fails parse now mr bs rest (stepCommit fails s d)
            else runLoop fails parse now mr bs rest (stepAppend s d)) = .ok s' := hr
          by_cases hb : bs ≤ s.pending.length + 1
          · rw [if_pos hb] at hr2
            have hk2 : ∃ sd2, lookupStore (stepCommit fails s d).store k = some sd2 ∧
                sd2.extra = sd.extra := by
              simp only [stepCommit, commit_batch_store]
              exact bulk_preserves fails (s.pending ++ [d]) s.store k sd hk
            obtain ⟨sd2, hk2, he2⟩ := hk2
            obtain ⟨sd', hk', he'⟩ := runLoop_preserves fails parse now mr bs rest
              (stepCommit fails s d) s' hr2 k sd2 hk2
            exact ⟨sd', hk', he'.trans he2⟩
          · rw [if_neg hb] at hr2
            exact runLoop_preserves fails parse now mr bs rest (stepAppend s d) s' hr2 k sd hk

/-! ## Claim-level notions and concrete inputs -/

/-- The source-derived part of a document: everything but the per-run
`ingested_at` stamp. -/
def dropTs (d : Doc) : String × String × Option Int × Bool :=
  (d.phish_id, d.url, d.submission_time, d.verified)

/-- The store viewed as a key → document map, ignoring only the
`ingested_at` stamp (extra fields included). -/
def eLookup (st : Store) (k : String) :
    Option ((String × String × Option Int × Bool) × List (String × String)) :=
  (lookupStore st k).map (fun sd => (dropTs sd.fields, sd.extra))

/-- A fully valid feed row with the given id and url. -/
def vrow (p u : String) : RawRow := ⟨some (some p), some (some u), none, none⟩

/-- Five valid rows (distinct ids). -/
def demoRows : List RawRow :=
  [vrow "1" "u1", vrow "2" "u2", vrow "3" "u3", vrow "4" "u4", vrow "5" "u5"]

/-- Ten valid rows (distinct ids). -/
def capRows : List RawRow :=
  [vrow "1" "u1", vrow "2" "u2", vrow "3" "u3", vrow "4" "u4", vrow "5" "u5",
   vrow "6" "u6", vrow "7" "u7", vrow "8" "u8", vrow "9" "u9", vrow "10" "u10"]

/-! ## Claims -/

/-- Claim C5: against a source failing on every connection attempt, the
fetcher with retry limit `R` and backoff unit `B` makes exactly `R`
attempts, sleeps `B, 2B, ..., (R-1)B` after the failures (nothing after the
last), and raises the fatal `SourceUnavailable` error, returning no
stream. -/
theorem C5_thm (retries backoff : Nat) :
    fetch_csv (fun _ => false) retries backoff =
      ⟨retries, (List.range' 1 (retries - 1)).map (fun k => backoff * k),
        .error .sourceUnavailable⟩ :=
  fetchLoop_allFail retries backoff retries 0 (by omega)

/-- Claim C10: a run invoked with `max_rows = 0` is identical to a run with
`max_rows = None` (unlimited): Python's `if max_rows and ...` cap check is
disabled by the falsy `0`. -/
theorem C10_thm (fails : List String) (parse : String → Option Int) (now : Int)
    (rows : List RawRow) (bs : Nat) (st : Store) :
    run fails parse now rows (some 0) bs st
      = run fails parse now rows none bs st := by
  simp only [run, runLoop_cap0]

/-- Claim C2: a raw row whose `phish_id` or `url`, after trimming, is empty
or missing is returned as a skip by `_clean_row` (never a document), and the
loop handles it by incrementing exactly the skipped and processed counters,
leaving the store and pending batch untouched. -/
theorem C2_thm (parse : String → Option Int) (now : Int) (row : RawRow)
    (rest : List RawRow) (fails : List String) (mr : Option Nat) (bs : Nat)
    (s : RunState) (hp : row.phish_id ≠ some none) (hu : row.url ≠ some none)
    (hs : skipsRow row = true) (hc : capHit mr s.processed = false) :
    clean_row parse now row = .ok none ∧
    runLoop fails parse now mr bs (row :: rest) s
      = runLoop fails parse now mr bs rest
          { s with consumed := s.consumed + 1, skipped := s.skipped + 1,
                   processed := s.processed + 1 } := by
  have hcr := clean_row_skip hp hu hs parse now
  exact ⟨hcr, by simp [runLoop, hc, hcr, stepSkip]⟩

/-- Claim C2 witness: a row with whitespace-only `phish_id` is skipped. -/
theorem C2_wit :
    ((⟨some (some "  "), some (some "u"), none, none⟩ : RawRow).phish_id ≠ some none ∧
      skipsRow ⟨some (some "  "), some (some "u"), none, none⟩ = true) ∧
    (clean_row (fun _ => none) 0 ⟨some (some "  "), some (some "u"), none, none⟩
        = .ok none ∧
      runLoop [] (fun _ => none) 0 none 1000
          [⟨some (some "  "), some (some "u"), none, none⟩] (initState [])
        = runLoop [] (fun _ => none) 0 none 1000 []
            (⟨[], [], 0, 0, 1, 1, 1, []⟩ : RunState)) :=
  ⟨⟨by decide, by decide⟩,
    C2_thm (fun _ => none) 0 ⟨some (some "  "), some (some "u"), none, none⟩ []
      [] none 1000 (initState []) (by decide) (by decide) (by decide) (by decide)⟩

/-- Claim C7: a raw row (string-valued) whose trimmed `phish_id` and `url`
are non-empty always becomes a document: `submission_time` is the parsed
timestamp when present and parseable and `none` otherwise, and `verified` is
true iff the lower-cased verification field is one of yes/y/true (false when
absent). -/
theorem C7_thm (parse : String → Option Int) (now : Int) (row : RawRow)
    (hw : row.wf = true)
    (hp : pyTrim ((pyGet row.phish_id (some "")).getD "") ≠ "")
    (hu : pyTrim ((pyGet row.url (some "")).getD "") ≠ "")
    (h0 : parse "" = none) :
    clean_row parse now row = .ok (some (mkDoc parse now row)) ∧
    (mkDoc parse now row).submission_time
      = (pyGet row.submission_time none).bind parse ∧
    ((mkDoc parse now row).verified = true ↔
      pyToLower ((pyGet row.verified (some "")).getD "")
        ∈ (["yes", "y", "true"] : List String)) ∧
    (mkDoc parse now row).ingested_at = now := by
  have hs : skipsRow row = false := by
    simp [skipsRow, hp, hu]
  have hcr := clean_row_wf hw parse now
  refine ⟨by simpa [hs] using hcr, ?_, ?_, rfl⟩
  · simp only [mkDoc]
    cases hst : pyGet row.submission_time none with
    | none => simp
    | some s =>
      by_cases hse : s = "" <;> simp [hse, h0]
  · simp [mkDoc]
    tauto

/-- Claim C7 witness: a valid row with `submission_time = "2020"` and
`verified = "Yes"` under a parse function accepting `"2020"`. -/
theorem C7_wit :
    ((⟨some (some "1"), some (some "u"), some (some "2020"),
        some (some "Yes")⟩ : RawRow).wf = true ∧
      ((fun s => if s = "2020" then some (5 : Int) else none) "" = none)) ∧
    (clean_row (fun s => if s = "2020" then some (5 : Int) else none) 3
        ⟨some (some "1"), some (some "u"), some (some "2020"), some (some "Yes")⟩
      = .ok (some (mkDoc (fun s => if s = "2020" then some (5 : Int) else none) 3
          ⟨some (some "1"), some (some "u"), some (some "2020"),
            some (some "Yes")⟩)) ∧
      (mkDoc (fun s => if s = "2020" then some (5 : Int) else none) 3
          ⟨some (some "1"), some (some "u"), some (some "2020"),
            some (some "Yes")⟩).submission_time
        = (pyGet (some (some "2020")) none).bind
            (fun s => if s = "2020" then some (5 : Int) else none) ∧
      ((mkDoc (fun s => if s = "2020" then some (5 : Int) else none) 3
          ⟨some (some "1"), some (some "u"), some (some "2020"),
            some (some "Yes")⟩).verified = true ↔
        pyToLower ((pyGet (some (some "Yes")) (some "")).getD "")
          ∈ (["yes", "y", "true"] : List String)) ∧
      (mkDoc (fun s => if s = "2020" then some (5 : Int) else none) 3
          ⟨some (some "1"), some (some "u"), some (some "2020"),
            some (some "Yes")⟩).ingested_at = 3) :=
  ⟨⟨by decide, by decide⟩,
    C7_thm (fun s => if s = "2020" then some (5 : Int) else none) 3
      ⟨some (some "1"), some (some "u"), some (some "2020"), some (some "Yes")⟩
      (by decide) (by decide) (by decide) (by decide)⟩

/-- Claim C8 counterexample: the transformer CAN raise.  A row whose
`verified` column is present with value `None` (as `csv.DictReader` yields
for a short line) makes `row.get("verified", "").lower()` raise
`AttributeError`, instead of degrading to `verified = false`. -/
theorem C8_cex :
    clean_row (fun _ => none) 0
      ⟨some (some "1"), some (some "u"), none, some none⟩
      = .error .attributeError := rfl

/-- Claim C8 (amended): on rows whose present values are strings, the
transformer never raises: the only outcomes are a document or the
required-field skip (trimmed `phish_id` or `url` empty).  A present `None`
value in `phish_id`, `url` or `verified` raises `AttributeError` instead. -/
theorem C8_thm (parse : String → Option Int) (now : Int) (row : RawRow)
    (hw : row.wf = true) :
    ((∃ d, clean_row parse now row = .ok (some d)) ∨
      clean_row parse now row = .ok none) ∧
    (clean_row parse now row = .ok none →
      pyTrim ((pyGet row.phish_id (some "")).getD "") = "" ∨
      pyTrim ((pyGet row.url (some "")).getD "") = "") := by
  have hcr := clean_row_wf hw parse now
  by_cases hs : skipsRow row = true
  · refine ⟨Or.inr (by simp [hcr, hs]), fun _ => ?_⟩
    simpa [skipsRow] using hs
  · refine ⟨Or.inl ⟨mkDoc parse now row, by simp [hcr, hs]⟩, fun hnone => ?_⟩
    rw [hcr] at hnone
    simp [hs] at hnone

/-- Claim C8 witness: a fully valid string row produces a document. -/
theorem C8_wit :
    ((vrow "1" "u1").wf = true) ∧
    (((∃ d, clean_row (fun _ => none) 0 (vrow "1" "u1") = .ok (some d)) ∨
      clean_row (fun _ => none) 0 (vrow "1" "u1") = .ok none) ∧
    (clean_row (fun _ => none) 0 (vrow "1" "u1") = .ok none →
      pyTrim ((pyGet (vrow "1" "u1").phish_id (some "")).getD "") = "" ∨
      pyTrim ((pyGet (vrow "1" "u1").url (some "")).getD "") = "")) :=
  ⟨by decide, C8_thm (fun _ => none) 0 (vrow "1" "u1") (by decide)⟩

/-- Claim C3 counterexample: with `max_rows = 3` and ten valid rows, the run
ends with `processed = 3` and `skipped = 0` as claimed, but `consumed = 4`:
the `for` loop pulls row 4 from the reader before the cap check breaks, so
`rows 4-10 are never read` is false (row 4 is read). -/
theorem C3_cex :
    (run [] (fun _ => none) 0 capRows (some 3) 1000 []).toOption.map
        (fun o => (o.processed, o.skipped, o.consumed))
      = some (3, 0, 4) := by decide

/-- Claim C3 (amended): with `max_rows = m` (nonzero) the cap is a hard
ceiling on rows processed, checked before processing each row; but the check
runs after the loop header has pulled the next row, so at most one row
beyond those processed is read from the source sequence (`consumed ≤
processed + 1 ≤ m + 1`); rows beyond that are never read. -/
theorem C3_thm (fails : List String) (parse : String → Option Int) (now : Int)
    (rows : List RawRow) (bs : Nat) (m : Nat) (st : Store)
    (hm : m ≠ 0) (hw : rowsWF rows = true) :
    ∃ out, run fails parse now rows (some m) bs st = .ok out ∧
      out.processed ≤ m ∧ out.consumed ≤ out.processed + 1 ∧
      out.consumed ≤ m + 1 := by
  obtain ⟨s', hr, hp1, hp2⟩ := runLoop_cap fails parse now bs m hm rows
    (initState st) hw rfl (Nat.zero_le m)
  have h3 : s'.consumed ≤ m + 1 := by omega
  by_cases hp : s'.pending = []
  · exact ⟨s', by simp [run, hr, hp], hp1, hp2, h3⟩
  · exact ⟨{ s' with
      store := (commit_batch fails s'.store s'.pending).store,
      inserted := s'.inserted + (commit_batch fails s'.store s'.pending).nUpserted,
      updated := s'.updated + (commit_batch fails s'.store s'.pending).nMatched,
      commits := s'.commits ++ [s'.pending.length] },
      by simp [run, hr, hp], hp1, hp2, h3⟩

/-- Claim C3 witness: the amended bounds at `max_rows = 3` over the ten-row
feed. -/
theorem C3_wit :
    ((3 : Nat) ≠ 0 ∧ rowsWF capRows = true) ∧
    (∃ out, run [] (fun _ => none) 0 capRows (some 3) 1000 [] = .ok out ∧
      out.processed ≤ 3 ∧ out.consumed ≤ out.processed + 1 ∧
      out.consumed ≤ 3 + 1) :=
  ⟨⟨by decide, by decide⟩,
    C3_thm [] (fun _ => none) 0 capRows 1000 3 [] (by decide) (by decide)⟩

/-- Claim C4: with batch size `bs > 0`, a batch is committed exactly when
the pending list reaches `bs` (and is then cleared), and any non-empty
remainder is committed as a final flush: writing `a` for the number of
accepted records, the commit sizes are `a / bs` full batches of `bs`
followed by one of `a % bs` when that remainder is non-zero. -/
theorem C4_thm (fails : List String) (parse : String → Option Int) (now : Int)
    (rows : List RawRow) (mr : Option Nat) (bs : Nat) (st : Store)
    (hbs : 0 < bs) (hw : rowsWF rows = true) :
    ∃ out, run fails parse now rows mr bs st = .ok out ∧
      out.commits = List.replicate ((out.processed - out.skipped) / bs) bs
        ++ (if (out.processed - out.skipped) % bs = 0 then []
            else [(out.processed - out.skipped) % bs]) := by
  obtain ⟨s', hr, hl, hcm, hinv⟩ := runLoop_commits fails parse now mr bs hbs
    rows (initState st) hw (by simpa [initState] using hbs)
    (by simp [initState]) (by simp [initState])
  have hrep : s'.commits = List.replicate s'.commits.length bs :=
    List.eq_replicate_length.mpr hcm
  have hA : s'.processed - s'.skipped
      = s'.pending.length + bs * s'.commits.length := by omega
  have hdiv : (s'.processed - s'.skipped) / bs = s'.commits.length := by
    rw [hA, Nat.add_mul_div_left _ _ hbs, Nat.div_eq_of_lt hl, Nat.zero_add]
  have hmod : (s'.processed - s'.skipped) % bs = s'.pending.length := by
    rw [hA, Nat.add_mul_mod_self_left, Nat.mod_eq_of_lt hl]
  by_cases hp : s'.pending = []
  · refine ⟨s', by simp [run, hr, hp], ?_⟩
    rw [hdiv, hmod, hp]
    simpa using hrep
  · refine ⟨{ s' with
      store := (commit_batch fails s'.store s'.pending).store,
      inserted := s'.inserted + (commit_batch fails s'.store s'.pending).nUpserted,
      updated := s'.updated + (commit_batch fails s'.store s'.pending).nMatched,
      commits := s'.commits ++ [s'.pending.length] },
      by simp [run, hr, hp], ?_⟩
    show s'.commits ++ [s'.pending.length]
      = List.replicate ((s'.processed - s'.skipped) / bs) bs
        ++ (if (s'.processed - s'.skipped) % bs = 0 then []
            else [(s'.processed - s'.skipped) % bs])
    rw [hdiv, hmod]
    have hne : s'.pending.length ≠ 0 := by
      simpa [List.length_eq_zero] using hp
    rw [if_neg hne, ← hrep]

/-- Claim C4 witness: batch size 2 over five accepted records gives exactly
the commit sizes `[2, 2, 1]`, the last being the final flush. -/
theorem C4_wit :
    ((0 : Nat) < 2 ∧ rowsWF demoRows = true) ∧
    (∃ out, run [] (fun _ => none) 0 demoRows none 2 [] = .ok out ∧
      out.commits = List.replicate ((out.processed - out.skipped) / 2) 2
        ++ (if (out.processed - out.skipped) % 2 = 0 then []
            else [(out.processed - out.skipped) % 2])) ∧
    (run [] (fun _ => none) 0 demoRows none 2 []).toOption.map
        (fun o => o.commits) = some [2, 2, 1] :=
  ⟨⟨by decide, by decide⟩,
    C4_thm [] (fun _ => none) 0 demoRows none 2 [] (by decide) (by decide),
    by decide⟩

/-- Claim C6: if any record write in a committed batch fails, the reconciler
does not raise: it returns `(0, 0)` as the batch's counts and signals the
warning, and a run in which writes fail still completes and returns a
summary (the pipeline proceeds with subsequent batches). -/
theorem C6_thm (fails : List String) (st : Store) (ops : List Doc)
    (parse : String → Option Int) (now : Int) (rows : List RawRow)
    (mr : Option Nat) (bs : Nat) (st0 : Store)
    (hop : ∃ d ∈ ops, d.phish_id ∈ fails) (hw : rowsWF rows = true) :
    (commit_batch fails st ops).nUpserted = 0 ∧
    (commit_batch fails st ops).nMatched = 0 ∧
    (commit_batch fails st ops).warned = true ∧
    (∃ out, run fails parse now rows mr bs st0 = .ok out) := by
  have hf := bulk_failed_true fails ops st hop
  refine ⟨?_, ?_, ?_, run_total fails parse now rows mr bs st0 hw⟩ <;>
    simp [commit_batch, hf]

/-- Claim C6 witness: a batch whose single write fails, and a full run over
the demo feed in which that key's writes fail. -/
theorem C6_wit :
    ((∃ d ∈ [(⟨"1", "u1", none, false, 0⟩ : Doc)], d.phish_id ∈ ["1"]) ∧
      rowsWF demoRows = true) ∧
    ((commit_batch ["1"] [] [⟨"1", "u1", none, false, 0⟩]).nUpserted = 0 ∧
      (commit_batch ["1"] [] [⟨"1", "u1", none, false, 0⟩]).nMatched = 0 ∧
      (commit_batch ["1"] [] [⟨"1", "u1", none, false, 0⟩]).warned = true ∧
      (∃ out, run ["1"] (fun _ => none) 0 demoRows none 2 [] = .ok out)) :=
  ⟨⟨by decide, by decide⟩,
    C6_thm ["1"] [] [⟨"1", "u1", none, false, 0⟩] (fun _ => none) 0 demoRows
      none 2 [] (by decide) (by decide)⟩

/-- Claim C9: a run only issues per-key `$set` upserts: any document present
before the run is still present afterwards (nothing is ever deleted), and
its extra (non-pipeline) fields are untouched — only the five
NormalizedRecord fields are ever written. -/
theorem C9_thm (fails : List String) (parse : String → Option Int) (now : Int)
    (rows : List RawRow) (mr : Option Nat) (bs : Nat) (st : Store)
    (k : String) (sd : StoredDoc)
    (hw : rowsWF rows = true) (hk : lookupStore st k = some sd) :
    ∃ out sd', run fails parse now rows mr bs st = .ok out ∧
      lookupStore out.store k = some sd' ∧ sd'.extra = sd.extra := by
  obtain ⟨s', hr⟩ := runLoop_total fails parse now mr bs rows (initState st) hw
  obtain ⟨sd2, hk2, he2⟩ :=
    runLoop_preserves fails parse now mr bs rows (initState st) s' hr k sd hk
  by_cases hp : s'.pending = []
  · exact ⟨s', sd2, by simp [run, hr, hp], hk2, he2⟩
  · obtain ⟨sd', hk', he'⟩ :=
      bulk_preserves fails s'.pending s'.store k sd2 hk2
    refine ⟨{ s' with
      store := (commit_batch fails s'.store s'.pending).store,
      inserted := s'.inserted + (commit_batch fails s'.store s'.pending).nUpserted,
      updated := s'.updated + (commit_batch fails s'.store s'.pending).nMatched,
      commits := s'.commits ++ [s'.pending.length] }, sd',
      by simp [run, hr, hp], ?_, he'.trans he2⟩
    show lookupStore (commit_batch fails s'.store s'.pending).store k = some sd'
    rw [commit_batch_store]
    exact hk'

/-- Claim C9 witness: a pre-existing document with an extra field keeps that
field when the feed re-submits its key with a new url. -/
theorem C9_wit :
    (rowsWF [vrow "1" "u9"] = true ∧
      lookupStore [("1", ⟨⟨"1", "old", none, false, 5⟩, [("note", "x")]⟩)] "1"
        = some ⟨⟨"1", "old", none, false, 5⟩, [("note", "x")]⟩) ∧
    (∃ out sd', run [] (fun _ => none) 9 [vrow "1" "u9"] none 1000
        [("1", ⟨⟨"1", "old", none, false, 5⟩, [("note", "x")]⟩)] = .ok out ∧
      lookupStore out.store "1" = some sd' ∧
      sd'.extra = (⟨⟨"1", "old", none, false, 5⟩, [("note", "x")]⟩ : StoredDoc).extra) :=
  ⟨⟨by decide, by decide⟩,
    C9_thm [] (fun _ => none) 9 [vrow "1" "u9"] none 1000
      [("1", ⟨⟨"1", "old", none, false, 5⟩, [("note", "x")]⟩)] "1"
      ⟨⟨"1", "old", none, false, 5⟩, [("note", "x")]⟩ (by decide) (by decide)⟩

lemma dropTs_retime (t : Int) (d : Doc) : dropTs (retime t d) = dropTs d := rfl

lemma extraAt_bulk (ds : List Doc) (st : Store) (k : String) :
    extraAt (bulk_write [] st ds).store k = extraAt st k := by
  rw [extraAt, bulk_store_lookup]
  cases hf : findLast ds k with
  | some d => simp [extraAt]
  | none => simp [extraAt]

/-- Claim C1 counterexample: re-running the unchanged single-row feed does
NOT reproduce the identical store state: the stored document's
`ingested_at` is restamped with run 2's wall-clock time. -/
theorem C1_cex :
    (run [] (fun _ => none) 0 [vrow "1" "u1"] none 1000 []).toOption.map
        (fun o => o.store)
      = some [("1", ⟨⟨"1", "u1", none, false, 0⟩, []⟩)] ∧
    (run [] (fun _ => none) 1 [vrow "1" "u1"] none 1000
        [("1", ⟨⟨"1", "u1", none, false, 0⟩, []⟩)]).toOption.map
        (fun o => o.store)
      = some [("1", ⟨⟨"1", "u1", none, false, 1⟩, []⟩)] ∧
    ([("1", ⟨⟨"1", "u1", none, false, 1⟩, []⟩)] : Store)
      ≠ [("1", ⟨⟨"1", "u1", none, false, 0⟩, []⟩)] :=
  ⟨by decide, by decide, by decide⟩

/-- Claim C1 (amended): re-running the pipeline against the unchanged feed
with no failing writes yields the same final store state up to each
document's `ingested_at` stamp (key set, source-derived fields, and extra
fields all agree; `ingested_at` is restamped with run 2's clock); run 2
inserts nothing, its updated count equals its accepted-row count
(`processed - skipped`, every accepted row re-submitting a
previously-created document), its processed/skipped counters repeat run 1's,
and the keyed store stays duplicate-free. -/
theorem C1_thm (parse : String → Option Int) (n1 n2 : Int) (rows : List RawRow)
    (mr : Option Nat) (bs : Nat) (st0 : Store) (hw : rowsWF rows = true)
    (hn : (keysOf st0).Nodup) :
    ∃ o1 o2, run [] parse n1 rows mr bs st0 = .ok o1 ∧
      run [] parse n2 rows mr bs o1.store = .ok o2 ∧
      (∀ k, eLookup o2.store k = eLookup o1.store k) ∧
      o2.inserted = 0 ∧
      o2.processed = o2.skipped + o2.updated ∧
      o2.processed = o1.processed ∧ o2.skipped = o1.skipped ∧
      (keysOf o2.store).Nodup := by
  obtain ⟨o1, hr1, e1, i1, u1, s1, p1⟩ := run_char parse n1 rows mr bs st0 hw
  obtain ⟨o2, hr2, e2, i2, u2, s2, p2⟩ :=
    run_char parse n2 rows mr bs o1.store hw
  have hmap : acceptedFrom parse n2 mr rows 0
      = (acceptedFrom parse n1 mr rows 0).map (retime n2) :=
    acceptedFrom_retime parse n1 n2 mr rows 0 hw
  have hall : ∀ d ∈ acceptedFrom parse n2 mr rows 0,
      (lookupStore o1.store d.phish_id).isSome := by
    intro d hd
    rw [hmap] at hd
    obtain ⟨d0, hd0, rfl⟩ := List.mem_map.mp hd
    have hpid : (retime n2 d0).phish_id = d0.phish_id := rfl
    rw [hpid, e1, bulk_store_lookup]
    have hfs := findLast_isSome_of_mem hd0
    cases hf : findLast (acceptedFrom parse n1 mr rows 0) d0.phish_id with
    | some d2 => simp
    | none => rw [hf] at hfs; simp at hfs
  have hmat := bulk_all_matched (acceptedFrom parse n2 mr rows 0) o1.store hall
  have hnd1 : (keysOf o1.store).Nodup := by
    rw [e1]; exact nodup_bulk [] _ st0 hn
  refine ⟨o1, o2, hr1, hr2, ?_, i2.trans hmat.1, ?_, by rw [p2, p1],
    by rw [s2, s1], by rw [e2]; exact nodup_bulk [] _ o1.store hnd1⟩
  · intro k
    simp only [eLookup]
    rw [e2, bulk_store_lookup, hmap, findLast_map_retime]
    cases hf : findLast (acceptedFrom parse n1 mr rows 0) k with
    | some d =>
      have hl1 : lookupStore o1.store k = some ⟨d, extraAt st0 k⟩ := by
        rw [e1, bulk_store_lookup, hf]
      have hex : extraAt o1.store k = extraAt st0 k := extraAt_of_lookup hl1
      simp [hf, hl1, hex, dropTs, retime]
    | none => simp [hf]
  · rw [p2, s2, u2, hmat.2]
    exact tallies_spec parse n2 mr rows 0 hw

/-- Claim C1 witness: the amended idempotency over a five-row feed with
batch size 2 and different wall-clock stamps for the two runs. -/
theorem C1_wit :
    (rowsWF demoRows = true ∧ (keysOf ([] : Store)).Nodup) ∧
    (∃ o1 o2, run [] (fun _ => none) 0 demoRows none 2 [] = .ok o1 ∧
      run [] (fun _ => none) 7 demoRows none 2 o1.store = .ok o2 ∧
      (∀ k, eLookup o2.store k = eLookup o1.store k) ∧
      o2.inserted = 0 ∧ o2.processed = o2.skipped + o2.updated ∧
      o2.processed = o1.processed ∧ o2.skipped = o1.skipped ∧
      (keysOf o2.store).Nodup) :=
  ⟨⟨by decide, by decide⟩,
    C1_thm (fun _ => none) 0 7 demoRows none 2 [] (by decide) (by decide)⟩

